import Mathlib

/-!
# Verification of the `envprofile` profile store and command layer

A shallow embedding of the `envprofile` tool (package sources
`src/envprofile/core.py` and `src/envprofile/cli.py`, installed as the
`envprofile` console script).  The persisted state is a single JSON file
mapping profile names to string-to-string variable mappings; every command
re-reads the file, mutates the in-memory mapping and rewrites the file.

Python `dict`s preserve insertion order and have unique keys, so a profile
store is embedded as an insertion-ordered association list.  The file itself
is embedded as a `String`; `json.dump(profiles, f, indent=2)` is embedded by
an executable serializer and `json.load` by an executable parser restricted
to the store schema (a top-level object whose values are objects of strings,
which is the only shape the program ever writes).
-/

/-- A profile: insertion-ordered mapping from variable key to value
(a Python `dict[str, str]`). -/
abbrev Profile := List (String × String)

/-- The profile store: insertion-ordered mapping from profile name to
profile (a Python `dict[str, dict[str, str]]`). -/
abbrev Store := List (String × Profile)

/-- First-match lookup in an association list; on the unique-key lists that
model Python dicts this is exactly `d[k]` / `d.get(k)`. -/
def alookup {α : Type} (k : String) : List (String × α) → Option α
  | [] => none
  | p :: rest => if p.1 = k then some p.2 else alookup k rest

/-- `k in d` for the embedded dict. -/
def hasKey {α : Type} (k : String) (l : List (String × α)) : Bool :=
  (alookup k l).isSome

/-- The keys of an embedded dict, in insertion order. -/
def keysOf {α : Type} (l : List (String × α)) : List String :=
  l.map Prod.fst

/-- `d[k] = v` on an embedded dict: overwrite in place if `k` is present
(Python keeps the original position of an existing key), append otherwise. -/
def setEntry {α : Type} (k : String) (v : α) (l : List (String × α)) :
    List (String × α) :=
  if hasKey k l then
    l.map fun p => if p.1 = k then (k, v) else p
  else
    l ++ [(k, v)]

/-- `del d[k]` on an embedded dict. -/
def delEntry {α : Type} (k : String) (l : List (String × α)) :
    List (String × α) :=
  l.filter fun p => p.1 ≠ k

/-- POSIX single-quote escaping of `cli.py::load_profile_cmd`:
`value.replace("'", "'\\''")`, at the character level. -/
def shellEscapeChars : List Char → List Char
  | [] => []
  | c :: rest =>
    if c = '\'' then '\'' :: '\\' :: '\'' :: '\'' :: shellEscapeChars rest
    else c :: shellEscapeChars rest

/-- `value.replace("'", "'\\''")` on strings. -/
def shellEscape (v : String) : String :=
  ⟨shellEscapeChars v.data⟩

/-- One line of `load` output: `export <key>='<escaped value>';`. -/
def exportLine (key value : String) : String :=
  "export " ++ key ++ "='" ++ shellEscape value ++ "';"

/-- Characters that a POSIX shell treats specially outside quotes; a word
containing one of these unquoted is not a single safe literal word. -/
def shellSpecial (c : Char) : Bool :=
  c = ' ' || c = '\t' || c = '\n' || c = ';' || c = '&' || c = '|' ||
  c = '$' || c = '<' || c = '>' || c = '(' || c = ')' ||
  c = '"' || c = '#' || c = '*' || c = '?' || c = '~'

/-- Lowercase hexadecimal digit, as emitted by `json.dumps` escapes. -/
def hexDigit (d : Nat) : Char :=
  if d < 10 then Char.ofNat (48 + d) else Char.ofNat (87 + d)

/-- Four lowercase hex digits of `n % 0x10000`, most significant first. -/
def hex4 (n : Nat) : List Char :=
  [hexDigit (n / 4096 % 16), hexDigit (n / 256 % 16),
   hexDigit (n / 16 % 16), hexDigit (n % 16)]

/-- The escape `json.dumps` (with its default `ensure_ascii=True`) applies to
one character: `"` and `\` get a backslash, the five control characters with
short escapes use them, every other printable-ASCII character is literal, and
everything else becomes `\uXXXX` (as a UTF-16 surrogate pair beyond the BMP),
per the `ESCAPE_ASCII` rules of the Python `json` module. -/
def encodeChar (c : Char) : List Char :=
  if c = '"' then ['\\', '"']
  else if c = '\\' then ['\\', '\\']
  else if 0x20 ≤ c.toNat ∧ c.toNat ≤ 0x7e then [c]
  else if c = '\x08' then ['\\', 'b']
  else if c = '\x0c' then ['\\', 'f']
  else if c = '\n' then ['\\', 'n']
  else if c = '\r' then ['\\', 'r']
  else if c = '\t' then ['\\', 't']
  else if c.toNat < 0x10000 then '\\' :: 'u' :: hex4 c.toNat
  else
    '\\' :: 'u' :: hex4 (0xd800 + (c.toNat - 0x10000) / 0x400) ++
    ('\\' :: 'u' :: hex4 (0xdc00 + (c.toNat - 0x10000) % 0x400))

/-- Escape every character of a string body. -/
def encodeChars : List Char → List Char
  | [] => []
  | c :: rest => encodeChar c ++ encodeChars rest

/-- A JSON string literal for `s`, as `json.dumps` renders it. -/
def quoteStr (s : String) : List Char :=
  '"' :: encodeChars s.data ++ ['"']

/-- Join pre-rendered entries with `",\n"`, the separator `json.dump` uses
between members when `indent` is given. -/
def sepJoin : List (List Char) → List Char
  | [] => []
  | [x] => x
  | x :: y :: rest => x ++ ',' :: '\n' :: sepJoin (y :: rest)

/-- One profile rendered by `json.dump(..., indent=2)` at nesting depth 1:
`ind` is the indentation of the closing brace (two spaces at depth 1);
members are indented two further spaces.  An empty object renders as `{}`. -/
def dumpProfileChars (ind : List Char) (p : Profile) : List Char :=
  match p with
  | [] => ['{', '}']
  | _ =>
    '{' :: '\n' ::
      sepJoin (p.map fun kv =>
        ind ++ ' ' :: ' ' :: (quoteStr kv.1 ++ ':' :: ' ' :: quoteStr kv.2)) ++
      '\n' :: ind ++ ['}']

/-- The whole store rendered by `json.dump(profiles, f, indent=2)`. -/
def dumpStoreChars (s : Store) : List Char :=
  match s with
  | [] => ['{', '}']
  | _ =>
    '{' :: '\n' ::
      sepJoin (s.map fun e =>
        ' ' :: ' ' :: (quoteStr e.1 ++ ':' :: ' ' ::
          dumpProfileChars [' ', ' '] e.2)) ++
      ['\n', '}']

/-- `json.dump(profiles, f, indent=2)` as a string: the exact file content
`save_profiles` writes. -/
def dumpStore (s : Store) : String :=
  ⟨dumpStoreChars s⟩

/-- The serialized text that follows a profile's first rendered member:
either the closing of the object or a comma and the next member.  Used to
describe the shape of `dumpProfileChars` output compositionally. -/
def pRest : Profile → List Char → List Char
  | [], tail => '\n' :: ' ' :: ' ' :: '}' :: tail
  | kv :: ps, tail =>
    ',' :: '\n' :: ' ' :: ' ' :: ' ' :: ' ' ::
      (quoteStr kv.1 ++ ':' :: ' ' :: quoteStr kv.2 ++ pRest ps tail)

/-- The serialized text that follows the store's first rendered entry:
either the closing of the top-level object or a comma and the next entry. -/
def sRest : Store → List Char → List Char
  | [], tail => '\n' :: '}' :: tail
  | e :: s, tail =>
    ',' :: '\n' :: ' ' :: ' ' ::
      (quoteStr e.1 ++ ':' :: ' ' ::
        (dumpProfileChars [' ', ' '] e.2 ++ sRest s tail))

/-- Value of one hexadecimal digit (either case, as `json.load` accepts). -/
def hexVal (c : Char) : Option Nat :=
  if '0' ≤ c ∧ c ≤ '9' then some (c.toNat - 48)
  else if 'a' ≤ c ∧ c ≤ 'f' then some (c.toNat - 87)
  else if 'A' ≤ c ∧ c ≤ 'F' then some (c.toNat - 55)
  else none

/-- Value of a four-digit hex escape. -/
def hexVal4 (a b c d : Char) : Option Nat :=
  match hexVal a, hexVal b, hexVal c, hexVal d with
  | some x, some y, some z, some w => some (((x * 16 + y) * 16 + z) * 16 + w)
  | _, _, _, _ => none

/-- The two-character escapes accepted inside a JSON string. -/
def simpleUnescape (c : Char) : Option Char :=
  if c = '"' then some '"'
  else if c = '\\' then some '\\'
  else if c = '/' then some '/'
  else if c = 'b' then some '\x08'
  else if c = 'f' then some '\x0c'
  else if c = 'n' then some '\n'
  else if c = 'r' then some '\r'
  else if c = 't' then some '\t'
  else none

/-- Read one escape sequence after a backslash inside a string literal:
either a two-character escape or `\uXXXX` (combining a UTF-16 surrogate
pair, as the external `json` module does).  Returns the decoded character
and the remaining input; a lone surrogate escape is rejected (the
serializer never produces one). -/
def readEsc (l : List Char) : Option (Char × List Char) :=
  match l with
  | [] => none
  | e :: rest =>
    if e = 'u' then
      match rest with
      | a :: b :: c :: d :: rest2 =>
        match hexVal4 a b c d with
        | none => none
        | some h =>
          if 0xd800 ≤ h ∧ h < 0xdc00 then
            match rest2 with
            | e2 :: u2 :: a2 :: b2 :: c2 :: d2 :: rest3 =>
              if e2 = '\\' ∧ u2 = 'u' then
                match hexVal4 a2 b2 c2 d2 with
                | none => none
                | some h2 =>
                  if 0xdc00 ≤ h2 ∧ h2 < 0xe000 then
                    some (Char.ofNat
                      (0x10000 + (h - 0xd800) * 0x400 + (h2 - 0xdc00)), rest3)
                  else none
              else none
            | _ => none
          else if 0xdc00 ≤ h ∧ h < 0xe000 then none
          else some (Char.ofNat h, rest2)
      | _ => none
    else
      match simpleUnescape e with
      | none => none
      | some c2 => some (c2, rest)

/-- Body of a JSON string literal, after the opening quote: returns the
decoded characters and the input after the closing quote.  The fuel only
bounds the number of decoded characters; callers pass more fuel than the
input length, which always suffices. -/
def parseStrBody : Nat → List Char → Option (List Char × List Char)
  | 0, _ => none
  | fuel + 1, l =>
    match l with
    | [] => none
    | c :: rest =>
      if c = '"' then some ([], rest)
      else if c = '\\' then
        match readEsc rest with
        | none => none
        | some (d, rest2) =>
          (parseStrBody fuel rest2).map fun r => (d :: r.1, r.2)
      else (parseStrBody fuel rest).map fun r => (c :: r.1, r.2)

/-- A JSON string literal: opening quote then `parseStrBody`. -/
def parseStr : List Char → Option (List Char × List Char)
  | [] => none
  | c :: rest =>
    if c = '"' then parseStrBody (rest.length + 1) rest else none

/-- The four whitespace characters `json.load` skips between tokens. -/
def isWsChar (c : Char) : Bool :=
  c = ' ' || c = '\t' || c = '\n' || c = '\r'

/-- Skip inter-token whitespace. -/
def skipWs : List Char → List Char
  | [] => []
  | c :: rest => if isWsChar c then skipWs rest else c :: rest

/-- Members of a profile object after its opening brace (first key already
at the head): `"key": "value"` pairs separated by `,` until `}`.  The fuel
only bounds the number of members; callers pass more fuel than the input
length, which always suffices since every member consumes input. -/
def parsePPairs : Nat → List Char → Option (Profile × List Char)
  | 0, _ => none
  | fuel + 1, l =>
    match parseStr l with
    | none => none
    | some (k, r1) =>
      match skipWs r1 with
      | [] => none
      | c :: r2 =>
        if c = ':' then
          match parseStr (skipWs r2) with
          | none => none
          | some (v, r3) =>
            match skipWs r3 with
            | [] => none
            | c2 :: r4 =>
              if c2 = ',' then
                (parsePPairs fuel (skipWs r4)).map fun p =>
                  ((⟨k⟩, ⟨v⟩) :: p.1, p.2)
              else if c2 = '}' then some ([(⟨k⟩, ⟨v⟩)], r4)
              else none
        else none

/-- A profile value: `{}` or a brace-enclosed list of string pairs. -/
def parseProfileVal (l : List Char) : Option (Profile × List Char) :=
  match l with
  | [] => none
  | c :: rest =>
    if c = '{' then
      match skipWs rest with
      | [] => none
      | c2 :: r2 => if c2 = '}' then some ([], r2)
                    else parsePPairs (l.length + 1) (skipWs rest)
    else none

/-- Members of the top-level store object (first profile name already at
the head): `"name": <profile object>` separated by `,` until `}`. -/
def parseSEntries : Nat → List Char → Option (Store × List Char)
  | 0, _ => none
  | fuel + 1, l =>
    match parseStr l with
    | none => none
    | some (k, r1) =>
      match skipWs r1 with
      | [] => none
      | c :: r2 =>
        if c = ':' then
          match parseProfileVal (skipWs r2) with
          | none => none
          | some (p, r3) =>
            match skipWs r3 with
            | [] => none
            | c2 :: r4 =>
              if c2 = ',' then
                (parseSEntries fuel (skipWs r4)).map fun st =>
                  ((⟨k⟩, p) :: st.1, st.2)
              else if c2 = '}' then some ([(⟨k⟩, p)], r4)
              else none
        else none

/-- A whole store document: one top-level object with nothing but
whitespace around it, as `json.load` requires of the file.  A model of the
external `json` module restricted to the store schema the program writes
(an object of objects of strings); any other document is rejected. -/
def parseStoreChars (l : List Char) : Option Store :=
  match skipWs l with
  | [] => none
  | c :: rest =>
    if c = '{' then
      match skipWs rest with
      | [] => none
      | c2 :: r2 =>
        if c2 = '}' then
          match skipWs r2 with
          | [] => some []
          | _ => none
        else
          match parseSEntries (l.length + 1) (skipWs rest) with
          | none => none
          | some (st, r3) =>
            match skipWs r3 with
            | [] => some st
            | _ => none
    else none

/-- `json.load` on the file content, restricted to the store schema. -/
def parseStore (content : String) : Option Store :=
  parseStoreChars content.data

/-!
## Store operations (`core.py::ProfileManager`)

Each operation takes the current file content, re-reads it, and the mutating
ones return the new file content (unchanged content on the `False` paths,
where the source returns without calling `save_profiles`).
-/

/-- `load_profiles`: parse the file; on a parse failure return the empty
store (`try: return json.load(f) except json.JSONDecodeError: return {}`). -/
def load_profiles (content : String) : Store :=
  (parseStore content).getD []

/-- `save_profiles`: rewrite the file with `json.dump(profiles, f, indent=2)`. -/
def save_profiles (profiles : Store) : String :=
  dumpStore profiles

/-- `create_profile`: `False` without mutation if the name exists, else
insert `name -> {}` and persist. -/
def create_profile (content profile_name : String) : Bool × String :=
  let profiles := load_profiles content
  if hasKey profile_name profiles then (false, content)
  else (true, save_profiles (setEntry profile_name [] profiles))

/-- `add_variable`: `False` without mutation if the profile is absent, else
`profiles[profile_name][key] = value` and persist. -/
def add_variable (content profile_name key value : String) : Bool × String :=
  let profiles := load_profiles content
  match alookup profile_name profiles with
  | none => (false, content)
  | some p =>
    (true, save_profiles (setEntry profile_name (setEntry key value p) profiles))

/-- `remove_variable`: `False` without mutation if the profile or the key is
absent, else delete the key and persist. -/
def remove_variable (content profile_name key : String) : Bool × String :=
  let profiles := load_profiles content
  match alookup profile_name profiles with
  | none => (false, content)
  | some p =>
    if hasKey key p then
      (true, save_profiles (setEntry profile_name (delEntry key p) profiles))
    else (false, content)

/-- `get_profile`: `profiles.get(profile_name)` — `None` when absent,
the (possibly empty) mapping when present. -/
def get_profile (content profile_name : String) : Option Profile :=
  alookup profile_name (load_profiles content)

/-- `list_profiles`: each profile name with its variable count. -/
def list_profiles (content : String) : List (String × Nat) :=
  (load_profiles content).map fun e => (e.1, e.2.length)

/-- `delete_profile`: `False` without mutation if absent, else remove the
profile and persist. -/
def delete_profile (content profile_name : String) : Bool × String :=
  let profiles := load_profiles content
  if hasKey profile_name profiles then
    (true, save_profiles (delEntry profile_name profiles))
  else (false, content)

/-!
## Command layer (`cli.py`)

Each handler returns the exit code the installed console script turns into
the process exit status (`setup.py` installs `envprofile.cli:main`, whose
return value becomes the exit code), the stdout and stderr lines it prints,
and the resulting file content.
-/

/-- Outcome of one CLI invocation: exit code, stdout lines, stderr lines. -/
structure CmdResult where
  exitCode : Nat
  stdoutLines : List String
  stderrLines : List String
  deriving DecidableEq

/-- `cli.py::create_profile_cmd`. -/
def create_profile_cmd (content profile_name : String) : CmdResult × String :=
  let r := create_profile content profile_name
  if r.1 then
    (⟨0, ["Created profile '" ++ profile_name ++ "'"], []⟩, r.2)
  else
    (⟨1, ["Profile '" ++ profile_name ++ "' already exists"], []⟩, r.2)

/-- `cli.py::add_variable_cmd`. -/
def add_variable_cmd (content profile_name key value : String) :
    CmdResult × String :=
  let r := add_variable content profile_name key value
  if r.1 then
    (⟨0, ["Added/updated '" ++ key ++ "=" ++ value ++ "' to profile '" ++
          profile_name ++ "'"], []⟩, r.2)
  else
    (⟨1, ["Profile '" ++ profile_name ++ "' does not exist"], []⟩, r.2)

/-- `cli.py::remove_variable_cmd`; on failure it re-reads the store to
distinguish a missing profile from a missing key. -/
def remove_variable_cmd (content profile_name key : String) :
    CmdResult × String :=
  let r := remove_variable content profile_name key
  if r.1 then
    (⟨0, ["Removed '" ++ key ++ "' from profile '" ++ profile_name ++ "'"],
      []⟩, r.2)
  else
    let profiles := load_profiles r.2
    if ¬ hasKey profile_name profiles then
      (⟨1, ["Profile '" ++ profile_name ++ "' does not exist"], []⟩, r.2)
    else
      (⟨1, ["Key '" ++ key ++ "' does not exist in profile '" ++
            profile_name ++ "'"], []⟩, r.2)

/-- `cli.py::list_profiles_cmd`. -/
def list_profiles_cmd (content : String) : CmdResult × String :=
  let profiles := list_profiles content
  if profiles = [] then (⟨0, ["No profiles available"], []⟩, content)
  else
    (⟨0, "Available profiles:" ::
        (profiles.map fun e =>
          "  - " ++ e.1 ++ " (" ++ toString e.2 ++ " variable" ++
          (if e.2 ≠ 1 then "s" else "") ++ ")"), []⟩, content)

/-- `cli.py::show_profile_cmd`. -/
def show_profile_cmd (content profile_name : String) : CmdResult × String :=
  match get_profile content profile_name with
  | none =>
    (⟨1, ["Profile '" ++ profile_name ++ "' does not exist"], []⟩, content)
  | some [] =>
    (⟨0, ["Profile '" ++ profile_name ++ "' is empty"], []⟩, content)
  | some profile =>
    (⟨0, ("Profile: " ++ profile_name) :: "Environment variables:" ::
        (profile.map fun kv => "  " ++ kv.1 ++ "=" ++ kv.2), []⟩, content)

/-- `cli.py::load_profile_cmd`: diagnostics go to stderr; stdout carries
only the `export` statements. -/
def load_profile_cmd (content profile_name : String) : CmdResult × String :=
  match get_profile content profile_name with
  | none =>
    (⟨1, [], ["# Profile '" ++ profile_name ++ "' does not exist"]⟩, content)
  | some [] =>
    (⟨0, [], ["# Profile '" ++ profile_name ++ "' is empty"]⟩, content)
  | some profile =>
    (⟨0, profile.map fun kv => exportLine kv.1 kv.2, []⟩, content)

/-- `cli.py::delete_profile_cmd`. -/
def delete_profile_cmd (content profile_name : String) : CmdResult × String :=
  let r := delete_profile content profile_name
  if r.1 then
    (⟨0, ["Deleted profile '" ++ profile_name ++ "'"], []⟩, r.2)
  else
    (⟨1, ["Profile '" ++ profile_name ++ "' does not exist"], []⟩, r.2)

/-- A miniature POSIX word evaluator: reads one complete word made of bare
characters, backslash escapes and single-quoted spans, and returns the
literal text the shell would see.  Returns `none` if the input is not a
single uninterpreted word (an unquoted special character, an unterminated
quote, or a trailing backslash).  The mode flag is `true` inside single
quotes, where every character except `'` is literal. -/
def evalWord : Bool → List Char → Option (List Char)
  | false, [] => some []
  | false, c :: rest =>
    if c = '\'' then evalWord true rest
    else if c = '\\' then
      match rest with
      | [] => none
      | d :: rest2 => (evalWord false rest2).map fun w => d :: w
    else if shellSpecial c then none
    else (evalWord false rest).map fun w => c :: w
  | true, [] => none
  | true, c :: rest =>
    if c = '\'' then evalWord false rest
    else (evalWord true rest).map fun w => c :: w

/-!
## Lemmas: whitespace and string-literal round trip
-/

theorem skipWs_cons_ws (c : Char) (h : isWsChar c = true) (l : List Char) :
    skipWs (c :: l) = skipWs l := by
  simp [skipWs, h]

theorem skipWs_cons_not (c : Char) (h : isWsChar c = false) (l : List Char) :
    skipWs (c :: l) = c :: l := by
  simp [skipWs, h]

theorem skipWs_quoteStr (s : String) (l : List Char) :
    skipWs (quoteStr s ++ l) = quoteStr s ++ l := by
  simp only [quoteStr, List.cons_append]
  exact skipWs_cons_not _ (by decide) _

theorem hexVal_hexDigit : ∀ d, d < 16 → hexVal (hexDigit d) = some d := by
  decide

theorem hexVal4_hex4 (n : Nat) (h : n < 65536) :
    hexVal4 (hexDigit (n / 4096 % 16)) (hexDigit (n / 256 % 16))
      (hexDigit (n / 16 % 16)) (hexDigit (n % 16)) = some n := by
  rw [hexVal4, hexVal_hexDigit _ (by omega), hexVal_hexDigit _ (by omega),
    hexVal_hexDigit _ (by omega), hexVal_hexDigit _ (by omega)]
  simp only [Option.some.injEq]
  omega

theorem char_toNat_valid (c : Char) :
    c.toNat < 0xd800 ∨ (0xdfff < c.toNat ∧ c.toNat < 0x110000) := by
  rcases c.valid with h | ⟨h1, h2⟩
  · exact Or.inl (UInt32.toNat_lt_of_lt (by decide) h)
  · exact Or.inr ⟨UInt32.lt_toNat_of_lt (by decide) h1,
      UInt32.toNat_lt_of_lt (by decide) h2⟩

theorem parseStrBody_cons_quote (fuel : Nat) (l : List Char) :
    parseStrBody (fuel + 1) ('"' :: l) = some ([], l) := by
  rw [parseStrBody]
  simp

theorem parseStrBody_cons_esc (fuel : Nat) (rest : List Char) :
    parseStrBody (fuel + 1) ('\\' :: rest) =
      match readEsc rest with
      | none => none
      | some (d, rest2) =>
        (parseStrBody fuel rest2).map fun r => (d :: r.1, r.2) := by
  rw [parseStrBody]
  simp

theorem parseStrBody_cons_lit (fuel : Nat) (c : Char) (l : List Char)
    (h1 : ¬ c = '"') (h2 : ¬ c = '\\') :
    parseStrBody (fuel + 1) (c :: l) =
      (parseStrBody fuel l).map fun r => (c :: r.1, r.2) := by
  rw [parseStrBody]
  simp [h1, h2]

theorem readEsc_simple (e c : Char) (l : List Char) (hu : ¬ e = 'u')
    (h : simpleUnescape e = some c) : readEsc (e :: l) = some (c, l) := by
  simp [readEsc, hu, h]

theorem readEsc_u_bmp (n : Nat) (l : List Char) (hlt : n < 0x10000)
    (h1 : ¬ (0xd800 ≤ n ∧ n < 0xdc00)) (h2 : ¬ (0xdc00 ≤ n ∧ n < 0xe000)) :
    readEsc ('u' :: (hex4 n ++ l)) = some (Char.ofNat n, l) := by
  simp only [readEsc, hex4, List.cons_append, List.nil_append, if_pos rfl]
  rw [hexVal4_hex4 n hlt]
  dsimp only
  rw [if_neg h1, if_neg h2]
  simp

theorem readEsc_u_pair (a b : Nat) (l : List Char)
    (ha1 : 0xd800 ≤ a) (ha2 : a < 0xdc00) (hb1 : 0xdc00 ≤ b) (hb2 : b < 0xe000) :
    readEsc ('u' :: (hex4 a ++ '\\' :: 'u' :: (hex4 b ++ l))) =
      some (Char.ofNat (0x10000 + (a - 0xd800) * 0x400 + (b - 0xdc00)), l) := by
  simp only [readEsc, hex4, List.cons_append, List.nil_append, if_pos rfl]
  rw [hexVal4_hex4 _ (by omega)]
  dsimp only
  rw [if_pos (show 0xd800 ≤ a ∧ a < 0xdc00 from ⟨ha1, ha2⟩)]
  simp only [and_self, if_true]
  rw [hexVal4_hex4 _ (by omega)]
  dsimp only
  rw [if_pos (show 0xdc00 ≤ b ∧ b < 0xe000 from ⟨hb1, hb2⟩)]

theorem parseStrBody_encodeChar (fuel : Nat) (c : Char) (rest : List Char) :
    parseStrBody (fuel + 1) (encodeChar c ++ rest) =
      (parseStrBody fuel rest).map fun r => (c :: r.1, r.2) := by
  by_cases h1 : c = '"'
  · subst h1
    rw [show encodeChar '"' = ['\\', '"'] by decide]
    rw [show (['\\', '"'] : List Char) ++ rest = '\\' :: '"' :: rest from rfl]
    rw [parseStrBody_cons_esc, readEsc_simple '"' '"' rest (by decide) (by decide)]
  by_cases h2 : c = '\\'
  · subst h2
    rw [show encodeChar '\\' = ['\\', '\\'] by decide]
    rw [show (['\\', '\\'] : List Char) ++ rest = '\\' :: '\\' :: rest from rfl]
    rw [parseStrBody_cons_esc, readEsc_simple '\\' '\\' rest (by decide) (by decide)]
  by_cases h3 : 0x20 ≤ c.toNat ∧ c.toNat ≤ 0x7e
  · rw [show encodeChar c = [c] by rw [encodeChar, if_neg h1, if_neg h2, if_pos h3]]
    rw [show [c] ++ rest = c :: rest from rfl]
    exact parseStrBody_cons_lit fuel c rest h1 h2
  by_cases h4 : c = '\x08'
  · subst h4
    rw [show encodeChar '\x08' = ['\\', 'b'] by decide]
    rw [show (['\\', 'b'] : List Char) ++ rest = '\\' :: 'b' :: rest from rfl]
    rw [parseStrBody_cons_esc, readEsc_simple 'b' '\x08' rest (by decide) (by decide)]
  by_cases h5 : c = '\x0c'
  · subst h5
    rw [show encodeChar '\x0c' = ['\\', 'f'] by decide]
    rw [show (['\\', 'f'] : List Char) ++ rest = '\\' :: 'f' :: rest from rfl]
    rw [parseStrBody_cons_esc, readEsc_simple 'f' '\x0c' rest (by decide) (by decide)]
  by_cases h6 : c = '\n'
  · subst h6
    rw [show encodeChar '\n' = ['\\', 'n'] by decide]
    rw [show (['\\', 'n'] : List Char) ++ rest = '\\' :: 'n' :: rest from rfl]
    rw [parseStrBody_cons_esc, readEsc_simple 'n' '\n' rest (by decide) (by decide)]
  by_cases h7 : c = '\r'
  · subst h7
    rw [show encodeChar '\r' = ['\\', 'r'] by decide]
    rw [show (['\\', 'r'] : List Char) ++ rest = '\\' :: 'r' :: rest from rfl]
    rw [parseStrBody_cons_esc, readEsc_simple 'r' '\r' rest (by decide) (by decide)]
  by_cases h8 : c = '\t'
  · subst h8
    rw [show encodeChar '\t' = ['\\', 't'] by decide]
    rw [show (['\\', 't'] : List Char) ++ rest = '\\' :: 't' :: rest from rfl]
    rw [parseStrBody_cons_esc, readEsc_simple 't' '\t' rest (by decide) (by decide)]
  by_cases h9 : c.toNat < 0x10000
  · rw [show encodeChar c = '\\' :: 'u' :: hex4 c.toNat by
      rw [encodeChar, if_neg h1, if_neg h2, if_neg h3, if_neg h4, if_neg h5,
        if_neg h6, if_neg h7, if_neg h8, if_pos h9]]
    rw [show ('\\' :: 'u' :: hex4 c.toNat) ++ rest =
      '\\' :: 'u' :: (hex4 c.toNat ++ rest) by simp]
    rw [parseStrBody_cons_esc]
    rw [readEsc_u_bmp c.toNat rest h9
      (by rcases char_toNat_valid c with hv | hv <;> omega)
      (by rcases char_toNat_valid c with hv | hv <;> omega)]
    rw [Char.ofNat_toNat]
  · rw [show encodeChar c = '\\' :: 'u' :: hex4 (0xd800 + (c.toNat - 0x10000) / 0x400) ++
        ('\\' :: 'u' :: hex4 (0xdc00 + (c.toNat - 0x10000) % 0x400)) by
      rw [encodeChar, if_neg h1, if_neg h2, if_neg h3, if_neg h4, if_neg h5,
        if_neg h6, if_neg h7, if_neg h8, if_neg h9]]
    rw [show ('\\' :: 'u' :: hex4 (0xd800 + (c.toNat - 0x10000) / 0x400) ++
        ('\\' :: 'u' :: hex4 (0xdc00 + (c.toNat - 0x10000) % 0x400))) ++ rest =
      '\\' :: 'u' :: (hex4 (0xd800 + (c.toNat - 0x10000) / 0x400) ++
        '\\' :: 'u' :: (hex4 (0xdc00 + (c.toNat - 0x10000) % 0x400) ++ rest)) by simp]
    rw [parseStrBody_cons_esc]
    have hval : c.toNat < 0x110000 := by
      rcases char_toNat_valid c with hv | hv <;> omega
    rw [readEsc_u_pair _ _ rest (by omega) (by omega) (by omega) (by omega)]
    rw [show 0x10000 + (0xd800 + (c.toNat - 0x10000) / 0x400 - 0xd800) * 0x400 +
        (0xdc00 + (c.toNat - 0x10000) % 0x400 - 0xdc00) = c.toNat by omega]
    rw [Char.ofNat_toNat]

theorem encodeChar_length_pos (c : Char) : 1 ≤ (encodeChar c).length := by
  unfold encodeChar
  split_ifs <;> simp [hex4]

theorem encodeChars_length (v : List Char) : v.length ≤ (encodeChars v).length := by
  induction v with
  | nil => simp [encodeChars]
  | cons c v ih =>
    rw [show encodeChars (c :: v) = encodeChar c ++ encodeChars v from rfl]
    have := encodeChar_length_pos c
    simp only [List.length_append, List.length_cons]
    omega

theorem parseStrBody_encodeChars (v : List Char) : ∀ fuel rest, v.length < fuel →
    parseStrBody fuel (encodeChars v ++ '"' :: rest) = some (v, rest) := by
  induction v with
  | nil =>
    intro fuel rest h
    obtain ⟨f, rfl⟩ : ∃ f, fuel = f + 1 := ⟨fuel - 1, by omega⟩
    rw [show encodeChars [] ++ '"' :: rest = '"' :: rest from rfl]
    exact parseStrBody_cons_quote f rest
  | cons c v ih =>
    intro fuel rest h
    obtain ⟨f, rfl⟩ : ∃ f, fuel = f + 1 := ⟨fuel - 1, by omega⟩
    rw [show encodeChars (c :: v) = encodeChar c ++ encodeChars v from rfl]
    rw [List.append_assoc, parseStrBody_encodeChar]
    rw [ih f rest (by simp at h; omega)]
    rfl

theorem parseStr_quoteStr (s : String) (rest : List Char) :
    parseStr (quoteStr s ++ rest) = some (s.data, rest) := by
  rw [show quoteStr s ++ rest = '"' :: (encodeChars s.data ++ '"' :: rest) by
    simp [quoteStr]]
  rw [parseStr, if_pos rfl]
  apply parseStrBody_encodeChars
  have := encodeChars_length s.data
  simp only [List.length_append, List.length_cons]
  omega

theorem sepJoin_profile_entries (ps : Profile) :
    ∀ (kv : String × String) (tail : List Char),
    sepJoin ((kv :: ps).map fun e =>
        [' ', ' '] ++ ' ' :: ' ' :: (quoteStr e.1 ++ ':' :: ' ' :: quoteStr e.2)) ++
      ('\n' :: ' ' :: ' ' :: '}' :: tail) =
    ' ' :: ' ' :: ' ' :: ' ' ::
      (quoteStr kv.1 ++ ':' :: ' ' :: (quoteStr kv.2 ++ pRest ps tail)) := by
  induction ps with
  | nil =>
    intro kv tail
    simp [sepJoin, pRest, List.cons_append, List.append_assoc]
  | cons kv2 ps ih =>
    intro kv tail
    have h2 := ih kv2 tail
    simp only [List.map_cons, List.cons_append, List.nil_append,
      List.append_assoc] at h2 ⊢
    rw [sepJoin]
    simp only [List.cons_append, List.append_assoc]
    rw [h2]
    simp [pRest, List.cons_append, List.append_assoc]

theorem dumpProfile_shape (kv : String × String) (ps : Profile) (tail : List Char) :
    dumpProfileChars [' ', ' '] (kv :: ps) ++ tail =
      '{' :: '\n' :: ' ' :: ' ' :: ' ' :: ' ' ::
        (quoteStr kv.1 ++ ':' :: ' ' :: (quoteStr kv.2 ++ pRest ps tail)) := by
  have h := sepJoin_profile_entries ps kv tail
  simp only [List.map_cons, List.cons_append, List.nil_append,
    List.append_assoc] at h ⊢
  rw [dumpProfileChars]
  simp only [List.map_cons, List.cons_append, List.nil_append, List.append_assoc]
  rw [← h]
  intro hne
  exact List.noConfusion hne

theorem parsePPairs_pRest (ps : Profile) :
    ∀ (a b : String) (tail : List Char) (fuel : Nat), ps.length < fuel →
    parsePPairs fuel (quoteStr a ++ ':' :: ' ' :: (quoteStr b ++ pRest ps tail)) =
      some ((a, b) :: ps, tail) := by
  induction ps with
  | nil =>
    intro a b tail fuel h
    obtain ⟨f, rfl⟩ : ∃ f, fuel = f + 1 := ⟨fuel - 1, by omega⟩
    rw [parsePPairs]
    simp only [parseStr_quoteStr, skipWs_quoteStr, pRest,
      List.cons_append, List.append_assoc,
      skipWs_cons_not ':' (by decide), skipWs_cons_not ',' (by decide),
      skipWs_cons_not '}' (by decide), skipWs_cons_ws ' ' (by decide),
      skipWs_cons_ws '\n' (by decide)]
    simp
  | cons kv2 ps ih =>
    intro a b tail fuel h
    obtain ⟨f, rfl⟩ : ∃ f, fuel = f + 1 := ⟨fuel - 1, by omega⟩
    have hps : ps.length < f := by simp at h; omega
    rw [parsePPairs]
    simp only [parseStr_quoteStr, skipWs_quoteStr, pRest,
      List.cons_append, List.append_assoc,
      skipWs_cons_not ':' (by decide), skipWs_cons_not ',' (by decide),
      skipWs_cons_not '}' (by decide), skipWs_cons_ws ' ' (by decide),
      skipWs_cons_ws '\n' (by decide), ih kv2.1 kv2.2 tail f hps]
    simp

theorem quoteStr_cons (s : String) (l : List Char) :
    quoteStr s ++ l = '"' :: (encodeChars s.data ++ ('"' :: l)) := by
  simp [quoteStr]

theorem pRest_length (ps : Profile) (tail : List Char) :
    ps.length ≤ (pRest ps tail).length := by
  induction ps with
  | nil => simp [pRest]
  | cons kv ps ih =>
    simp only [pRest, List.length_cons, List.length_append]
    omega

theorem parseProfileVal_dump (p : Profile) (tail : List Char) :
    parseProfileVal (dumpProfileChars [' ', ' '] p ++ tail) = some (p, tail) := by
  match p with
  | [] =>
    rw [show dumpProfileChars [' ', ' '] [] ++ tail = '{' :: '}' :: tail from rfl]
    rw [parseProfileVal]
    simp only [skipWs_cons_not '}' (by decide)]
    simp
  | kv :: ps =>
    rw [dumpProfile_shape, parseProfileVal]
    rw [if_pos rfl]
    rw [skipWs_cons_ws '\n' (by decide), skipWs_cons_ws ' ' (by decide),
      skipWs_cons_ws ' ' (by decide), skipWs_cons_ws ' ' (by decide),
      skipWs_cons_ws ' ' (by decide), skipWs_quoteStr]
    have hl := quoteStr_cons kv.1 (':' :: ' ' :: (quoteStr kv.2 ++ pRest ps tail))
    rw [hl]
    dsimp only
    rw [if_neg (by decide : ¬ ('"' : Char) = '\x7d')]
    rw [← hl]
    rw [parsePPairs_pRest ps kv.1 kv.2 tail _ (by
      have h1 := pRest_length ps tail
      simp only [List.length_cons, List.length_append]
      omega)]

theorem sepJoin_store_entries (s : Store) :
    ∀ (e : String × Profile) (tail : List Char),
    sepJoin ((e :: s).map fun e2 =>
        ' ' :: ' ' :: (quoteStr e2.1 ++ ':' :: ' ' ::
          dumpProfileChars [' ', ' '] e2.2)) ++ ('\n' :: '\x7d' :: tail) =
    ' ' :: ' ' :: (quoteStr e.1 ++ ':' :: ' ' ::
      (dumpProfileChars [' ', ' '] e.2 ++ sRest s tail)) := by
  induction s with
  | nil =>
    intro e tail
    simp [sepJoin, sRest, List.cons_append, List.append_assoc]
  | cons e2 s ih =>
    intro e tail
    have h2 := ih e2 tail
    simp only [List.map_cons, List.cons_append, List.nil_append,
      List.append_assoc] at h2 ⊢
    rw [sepJoin]
    simp only [List.cons_append, List.append_assoc]
    rw [h2]
    simp [sRest, List.cons_append, List.append_assoc]

theorem dumpStore_shape (e : String × Profile) (s : Store) (tail : List Char) :
    dumpStoreChars (e :: s) ++ tail =
      '\x7b' :: '\n' :: ' ' :: ' ' ::
        (quoteStr e.1 ++ ':' :: ' ' ::
          (dumpProfileChars [' ', ' '] e.2 ++ sRest s tail)) := by
  have h := sepJoin_store_entries s e tail
  simp only [List.map_cons, List.cons_append, List.nil_append,
    List.append_assoc] at h ⊢
  rw [dumpStoreChars]
  simp only [List.map_cons, List.cons_append, List.nil_append, List.append_assoc]
  rw [← h]
  intro hne
  exact List.noConfusion hne

theorem sRest_length (s : Store) (tail : List Char) :
    s.length ≤ (sRest s tail).length := by
  induction s with
  | nil => simp [sRest]
  | cons e s ih =>
    simp only [sRest, List.length_cons, List.length_append]
    omega

theorem skipWs_dumpProfile (p : Profile) (l : List Char) :
    skipWs (dumpProfileChars [' ', ' '] p ++ l) =
      dumpProfileChars [' ', ' '] p ++ l := by
  match p with
  | [] =>
    rw [show dumpProfileChars [' ', ' '] [] ++ l = '\x7b' :: '\x7d' :: l from rfl]
    exact skipWs_cons_not '\x7b' (by decide) _
  | kv :: ps =>
    rw [dumpProfile_shape]
    exact skipWs_cons_not '\x7b' (by decide) _

theorem parseSEntries_sRest (s : Store) :
    ∀ (a : String) (p : Profile) (tail : List Char) (fuel : Nat),
    s.length < fuel →
    parseSEntries fuel (quoteStr a ++ ':' :: ' ' ::
        (dumpProfileChars [' ', ' '] p ++ sRest s tail)) =
      some ((a, p) :: s, tail) := by
  induction s with
  | nil =>
    intro a p tail fuel h
    obtain ⟨f, rfl⟩ : ∃ f, fuel = f + 1 := ⟨fuel - 1, by omega⟩
    rw [parseSEntries]
    simp only [parseStr_quoteStr, skipWs_dumpProfile, parseProfileVal_dump, sRest,
      List.cons_append, List.append_assoc,
      skipWs_cons_not ':' (by decide), skipWs_cons_not ',' (by decide),
      skipWs_cons_not '\x7d' (by decide), skipWs_cons_ws ' ' (by decide),
      skipWs_cons_ws '\n' (by decide)]
    simp
  | cons e2 s ih =>
    intro a p tail fuel h
    obtain ⟨f, rfl⟩ : ∃ f, fuel = f + 1 := ⟨fuel - 1, by omega⟩
    have hs : s.length < f := by simp at h; omega
    rw [parseSEntries]
    simp only [parseStr_quoteStr, skipWs_dumpProfile, parseProfileVal_dump, sRest,
      List.cons_append, List.append_assoc,
      skipWs_cons_not ':' (by decide), skipWs_cons_not ',' (by decide),
      skipWs_cons_not '\x7d' (by decide), skipWs_cons_ws ' ' (by decide),
      skipWs_cons_ws '\n' (by decide), skipWs_quoteStr,
      ih e2.1 e2.2 tail f hs]
    simp

theorem parseStoreChars_dump (s : Store) :
    parseStoreChars (dumpStoreChars s) = some s := by
  match s with
  | [] => decide
  | e :: s2 =>
    rw [show dumpStoreChars (e :: s2) = dumpStoreChars (e :: s2) ++ [] by simp]
    rw [dumpStore_shape, parseStoreChars]
    rw [skipWs_cons_not '\x7b' (by decide)]
    dsimp only
    rw [if_pos rfl]
    rw [skipWs_cons_ws '\n' (by decide), skipWs_cons_ws ' ' (by decide),
      skipWs_cons_ws ' ' (by decide), skipWs_quoteStr]
    have hl := quoteStr_cons e.1
      (':' :: ' ' :: (dumpProfileChars [' ', ' '] e.2 ++ sRest s2 []))
    rw [hl]
    dsimp only
    rw [if_neg (by decide : ¬ ('"' : Char) = '}')]
    rw [← hl]
    rw [parseSEntries_sRest s2 e.1 e.2 [] _ (by
      have h1 := sRest_length s2 []
      simp only [List.length_cons, List.length_append]
      omega)]
    simp [skipWs]

theorem parseStore_dumpStore (s : Store) : parseStore (dumpStore s) = some s :=
  parseStoreChars_dump s

theorem load_save (s : Store) : load_profiles (save_profiles s) = s := by
  rw [load_profiles, save_profiles, parseStore_dumpStore]
  rfl

/-!
## Lemmas: association lists, shell quoting, store operations
-/

theorem alookup_cons_self {α : Type} (k : String) (v : α) (l : List (String × α)) :
    alookup k ((k, v) :: l) = some v := by
  simp [alookup]

theorem alookup_append_of_none {α : Type} (k : String) (l1 l2 : List (String × α))
    (h : alookup k l1 = none) : alookup k (l1 ++ l2) = alookup k l2 := by
  induction l1 with
  | nil => simp
  | cons p l1 ih =>
    rw [alookup] at h
    by_cases hp : p.1 = k
    · rw [if_pos hp] at h
      exact absurd h (by simp)
    · rw [if_neg hp] at h
      rw [List.cons_append, alookup, if_neg hp]
      exact ih h

theorem alookup_append_of_some {α : Type} (k : String) (l1 l2 : List (String × α))
    (v : α) (h : alookup k l1 = some v) : alookup k (l1 ++ l2) = some v := by
  induction l1 with
  | nil => simp [alookup] at h
  | cons p l1 ih =>
    rw [alookup] at h
    by_cases hp : p.1 = k
    · rw [if_pos hp] at h
      rw [List.cons_append, alookup, if_pos hp]
      exact h
    · rw [if_neg hp] at h
      rw [List.cons_append, alookup, if_neg hp]
      exact ih h

theorem alookup_singleton_ne {α : Type} (k q : String) (v : α) (h : ¬ q = k) :
    alookup q [(k, v)] = none := by
  rw [alookup, if_neg (fun hh => h hh.symm)]
  rfl

theorem hasKey_iff_mem {α : Type} (k : String) (l : List (String × α)) :
    hasKey k l = true ↔ k ∈ keysOf l := by
  induction l with
  | nil => simp [hasKey, alookup, keysOf]
  | cons p l ih =>
    rw [hasKey, alookup]
    by_cases hp : p.1 = k
    · subst hp
      simp [keysOf]
    · rw [if_neg hp]
      rw [hasKey] at ih
      simp only [keysOf, List.map_cons, List.mem_cons] at ih ⊢
      constructor
      · intro hh
        exact Or.inr (ih.mp hh)
      · intro hh
        rcases hh with h1 | h1
        · exact absurd h1.symm hp
        · exact ih.mpr h1

theorem alookup_setEntry_self {α : Type} (k : String) (v : α)
    (l : List (String × α)) : alookup k (setEntry k v l) = some v := by
  rw [setEntry]
  by_cases hk : hasKey k l
  · rw [if_pos hk]
    rw [hasKey] at hk
    induction l with
    | nil => simp [alookup] at hk
    | cons p l ih =>
      rw [alookup] at hk
      by_cases hp : p.1 = k
      · simp [List.map_cons, if_pos hp, alookup]
      · rw [if_neg hp] at hk
        simp only [List.map_cons, if_neg hp]
        rw [alookup, if_neg hp]
        exact ih hk
  · rw [if_neg hk]
    rw [hasKey] at hk
    have hnone : alookup k l = none := by
      cases hl : alookup k l with
      | none => rfl
      | some v2 => rw [hl] at hk; simp at hk
    rw [alookup_append_of_none k l [(k, v)] hnone]
    exact alookup_cons_self k v []

theorem alookup_map_set {α : Type} (k q : String) (v : α)
    (l : List (String × α)) (h : ¬ q = k) :
    alookup q (l.map fun p => if p.1 = k then (k, v) else p) = alookup q l := by
  induction l with
  | nil => simp
  | cons p l ih =>
    simp only [List.map_cons]
    by_cases hp : p.1 = k
    · rw [if_pos hp, alookup, alookup,
        if_neg (fun hh : k = q => h hh.symm),
        if_neg (by rw [hp]; exact fun hh => h hh.symm)]
      exact ih
    · rw [if_neg hp, alookup, alookup]
      by_cases hq : p.1 = q
      · rw [if_pos hq, if_pos hq]
      · rw [if_neg hq, if_neg hq]
        exact ih

theorem alookup_setEntry_ne {α : Type} (k q : String) (v : α)
    (l : List (String × α)) (h : ¬ q = k) :
    alookup q (setEntry k v l) = alookup q l := by
  rw [setEntry]
  by_cases hk : hasKey k l
  · rw [if_pos hk]
    exact alookup_map_set k q v l h
  · rw [if_neg hk]
    cases hl : alookup q l with
    | some w => exact alookup_append_of_some q l [(k, v)] w hl
    | none =>
      rw [alookup_append_of_none q l [(k, v)] hl]
      exact alookup_singleton_ne k q v h

theorem keysOf_setEntry_haskey {α : Type} (k : String) (v : α)
    (l : List (String × α)) (h : hasKey k l = true) :
    keysOf (setEntry k v l) = keysOf l := by
  rw [setEntry, if_pos h, keysOf, keysOf, List.map_map]
  apply List.map_congr_left
  intro p _
  by_cases hpk : p.1 = k
  · simp [hpk]
  · simp [hpk]

theorem keysOf_setEntry_new {α : Type} (k : String) (v : α)
    (l : List (String × α)) (h : ¬ hasKey k l = true) :
    keysOf (setEntry k v l) = keysOf l ++ [k] := by
  rw [setEntry, if_neg h, keysOf, List.map_append]
  rfl

theorem nodup_keysOf_setEntry {α : Type} (k : String) (v : α)
    (l : List (String × α)) (h : (keysOf l).Nodup) :
    (keysOf (setEntry k v l)).Nodup := by
  by_cases hk : hasKey k l
  · rw [keysOf_setEntry_haskey k v l hk]
    exact h
  · rw [keysOf_setEntry_new k v l hk]
    have hnm : k ∉ keysOf l := fun hm => hk ((hasKey_iff_mem k l).mpr hm)
    simp [List.nodup_append, h, hnm]

theorem alookup_delEntry_self {α : Type} (k : String) (l : List (String × α)) :
    alookup k (delEntry k l) = none := by
  induction l with
  | nil => rfl
  | cons p l ih =>
    by_cases hp : p.1 = k
    · simpa [delEntry, List.filter_cons, hp] using ih
    · rw [delEntry, List.filter_cons]
      simp only [hp, decide_not, decide_eq_true_eq, if_pos,
        Bool.not_eq_true]
      simpa [alookup, hp, delEntry] using ih

theorem alookup_delEntry_ne {α : Type} (k q : String) (l : List (String × α))
    (h : ¬ q = k) : alookup q (delEntry k l) = alookup q l := by
  induction l with
  | nil => rfl
  | cons p l ih =>
    by_cases hp : p.1 = k
    · rw [alookup, if_neg (by rw [hp]; exact fun hh => h hh.symm)]
      simpa [delEntry, List.filter_cons, hp] using ih
    · rw [delEntry, List.filter_cons]
      simp only [hp, decide_not, decide_eq_true_eq, Bool.not_eq_true]
      by_cases hq : p.1 = q
      · simp [alookup, hq, delEntry]
      · simpa [alookup, hq, delEntry] using ih

theorem evalWord_escape (v : List Char) :
    ∀ rest, evalWord true (shellEscapeChars v ++ '\'' :: rest) =
      (evalWord false rest).map fun w => v ++ w := by
  induction v with
  | nil =>
    intro rest
    rw [show shellEscapeChars [] ++ '\'' :: rest = '\'' :: rest from rfl]
    rw [evalWord.eq_def]
    dsimp only
    rw [if_pos rfl]
    cases evalWord false rest <;> simp
  | cons c v ih =>
    intro rest
    by_cases hc : c = '\''
    · subst hc
      rw [show shellEscapeChars ('\'' :: v) =
          '\'' :: '\\' :: '\'' :: '\'' :: shellEscapeChars v from by
        rw [shellEscapeChars, if_pos rfl]]
      simp only [List.cons_append]
      rw [evalWord.eq_def]
      dsimp only
      rw [if_pos rfl]
      rw [evalWord.eq_def]
      dsimp only
      rw [if_neg (by decide), if_pos rfl]
      rw [evalWord.eq_def]
      dsimp only
      rw [if_pos rfl]
      rw [ih rest]
      cases evalWord false rest <;> simp
    · rw [show shellEscapeChars (c :: v) = c :: shellEscapeChars v from by
        rw [shellEscapeChars, if_neg hc]]
      rw [List.cons_append]
      rw [evalWord.eq_def]
      dsimp only
      rw [if_neg hc, ih rest]
      cases evalWord false rest <;> simp
theorem evalWord_quoted (v : List Char) :
    evalWord false ('\'' :: (shellEscapeChars v ++ ['\''])) = some v := by
  rw [evalWord.eq_def]
  dsimp only
  rw [if_pos rfl, evalWord_escape v []]
  rw [show evalWord false [] = some [] from rfl]
  simp

theorem show_msgs_ne (P : String) :
    "Profile '" ++ P ++ "' does not exist" ≠ "Profile '" ++ P ++ "' is empty" := by
  intro h
  have h2 := congrArg String.length h
  rw [String.length_append, String.length_append, String.length_append,
    String.length_append] at h2
  rw [show ("' does not exist" : String).length = 16 from rfl,
    show ("' is empty" : String).length = 10 from rfl] at h2
  omega

theorem load_msgs_ne (P : String) :
    "# Profile '" ++ P ++ "' does not exist" ≠ "# Profile '" ++ P ++ "' is empty" := by
  intro h
  have h2 := congrArg String.length h
  rw [String.length_append, String.length_append, String.length_append,
    String.length_append] at h2
  rw [show ("' does not exist" : String).length = 16 from rfl,
    show ("' is empty" : String).length = 10 from rfl] at h2
  omega

theorem alookup_none_of_not_hasKey {α : Type} (k : String)
    (l : List (String × α)) (h : ¬ hasKey k l = true) : alookup k l = none := by
  rw [hasKey] at h
  cases hl : alookup k l with
  | none => rfl
  | some v => rw [hl] at h; simp at h

theorem exists_of_mem_keys {α : Type} (k : String) (l : List (String × α))
    (h : k ∈ keysOf l) : ∃ m, alookup k l = some m := by
  have h2 := (hasKey_iff_mem k l).mpr h
  rw [hasKey] at h2
  cases hl : alookup k l with
  | none => rw [hl] at h2; simp at h2
  | some v => exact ⟨v, rfl⟩

/-!
## Claims
-/

/-- C3: for every file content that is not valid JSON, `load_profiles`
returns the empty store instead of failing; the parse failure is never
surfaced to the caller (the function is total and recovers with `{}`). -/
theorem claim_C3 (content : String) (h : parseStore content = none) :
    load_profiles content = [] := by
  rw [load_profiles, h]
  rfl

theorem claim_C3_witness : load_profiles "\x7b\"dev\": \x7d" = [] :=
  claim_C3 "\x7b\"dev\": \x7d" (by decide)

/-- C8: serialization round-trips — `load` of a saved store is that store,
so saving the result of `load()` reproduces the persisted content byte for
byte on every file the program itself writes (every such file is
`save_profiles` output, including the initial `{}`, which is
`save_profiles []`), and one `load`/`save` cycle makes further cycles the
identity on arbitrary content. -/
theorem claim_C8 (s : Store) (content : String) :
    load_profiles (save_profiles s) = s ∧
    save_profiles (load_profiles (save_profiles s)) = save_profiles s ∧
    save_profiles (load_profiles (save_profiles (load_profiles content))) =
      save_profiles (load_profiles content) := by
  refine ⟨load_save s, ?_, ?_⟩
  · rw [load_save s]
  · rw [load_save (load_profiles content)]

/-- C4: `create_profile` returns false and leaves the file unchanged when
the name exists; otherwise it returns true, and a subsequent load of the
saved file shows the store extended with the new name mapped to the empty
profile. -/
theorem claim_C4 (content P : String) :
    (hasKey P (load_profiles content) = true →
      create_profile content P = (false, content)) ∧
    (¬ hasKey P (load_profiles content) = true →
      (create_profile content P).1 = true ∧
      load_profiles (create_profile content P).2 =
        load_profiles content ++ [(P, [])] ∧
      get_profile (create_profile content P).2 P = some []) := by
  constructor
  · intro h
    rw [create_profile]
    simp only [h, if_true]
  · intro h
    have hset : setEntry P [] (load_profiles content) =
        load_profiles content ++ [(P, [])] := by
      rw [setEntry, if_neg h]
    rw [create_profile]
    simp only [h, if_false, Bool.false_eq_true]
    refine ⟨by trivial, ?_, ?_⟩
    · rw [load_save, hset]
    · rw [get_profile, load_save]
      exact alookup_setEntry_self P [] (load_profiles content)

theorem claim_C4_witness :
    create_profile "\x7b\n  \"dev\": \x7b\x7d\n\x7d" "dev" = (false, "\x7b\n  \"dev\": \x7b\x7d\n\x7d") ∧
    (create_profile "\x7b\x7d" "dev").1 = true ∧
    get_profile (create_profile "\x7b\x7d" "dev").2 "dev" = some [] :=
  ⟨(claim_C4 "\x7b\n  \"dev\": \x7b\x7d\n\x7d" "dev").1 (by decide),
    ((claim_C4 "\x7b\x7d" "dev").2 (by decide)).1,
    ((claim_C4 "\x7b\x7d" "dev").2 (by decide)).2.2⟩

/-- C5: `add_variable` returns false without mutation when the profile is
absent; when the profile exists it overwrites or inserts the key (keeping
its position when present, appending when new, never duplicating keys),
persists, returns true, and afterwards `get_profile` shows the key bound to
the new value. -/
theorem claim_C5 (content P K V : String) :
    (alookup P (load_profiles content) = none →
      add_variable content P K V = (false, content)) ∧
    (∀ prof, alookup P (load_profiles content) = some prof →
      (add_variable content P K V).1 = true ∧
      get_profile (add_variable content P K V).2 P =
        some (setEntry K V prof) ∧
      alookup K (setEntry K V prof) = some V ∧
      (hasKey K prof = true → keysOf (setEntry K V prof) = keysOf prof) ∧
      (¬ hasKey K prof = true → setEntry K V prof = prof ++ [(K, V)]) ∧
      ((keysOf prof).Nodup → (keysOf (setEntry K V prof)).Nodup)) := by
  constructor
  · intro h
    rw [add_variable]
    simp only [h]
  · intro prof h
    rw [add_variable]
    simp only [h]
    refine ⟨by trivial, ?_, alookup_setEntry_self K V prof,
      fun hk => keysOf_setEntry_haskey K V prof hk,
      fun hk => by rw [setEntry, if_neg hk],
      fun hn => nodup_keysOf_setEntry K V prof hn⟩
    rw [get_profile, load_save]
    exact alookup_setEntry_self P (setEntry K V prof) (load_profiles content)

theorem claim_C5_witness :
    add_variable "\x7b\x7d" "dev" "A" "x" = (false, "\x7b\x7d") ∧
    get_profile (add_variable "\x7b\n  \"dev\": \x7b\x7d\n\x7d" "dev" "A" "x").2 "dev" =
      some (setEntry "A" "x" []) :=
  ⟨(claim_C5 "\x7b\x7d" "dev" "A" "x").1 (by decide),
    ((claim_C5 "\x7b\n  \"dev\": \x7b\x7d\n\x7d" "dev" "A" "x").2 [] (by decide)).2.1⟩

/-- C6: `remove_variable` returns false and leaves the file unchanged
exactly when the profile is absent or the key is absent within it;
otherwise it returns true, persists, and afterwards the key is gone from
that profile while every other key of it is untouched. -/
theorem claim_C6 (content P K : String) :
    (remove_variable content P K = (false, content) ↔
      ¬ ∃ prof, alookup P (load_profiles content) = some prof ∧
        hasKey K prof = true) ∧
    (∀ prof, alookup P (load_profiles content) = some prof →
      hasKey K prof = true →
      (remove_variable content P K).1 = true ∧
      get_profile (remove_variable content P K).2 P =
        some (delEntry K prof) ∧
      alookup K (delEntry K prof) = none ∧
      (∀ K2, ¬ K2 = K → alookup K2 (delEntry K prof) = alookup K2 prof)) := by
  constructor
  · constructor
    · intro h hex
      obtain ⟨prof, hp, hk⟩ := hex
      rw [remove_variable] at h
      simp only [hp, hk, if_true] at h
      exact absurd (congrArg Prod.fst h) (by simp)
    · intro hne
      rw [remove_variable]
      cases hl : alookup P (load_profiles content) with
      | none => rfl
      | some prof =>
        cases hk : hasKey K prof with
        | false => simp [hk]
        | true => exact absurd ⟨prof, hl, hk⟩ hne
  · intro prof h hk
    rw [remove_variable]
    simp only [h, hk, if_true]
    refine ⟨by trivial, ?_, alookup_delEntry_self K prof,
      fun K2 hne => alookup_delEntry_ne K K2 prof hne⟩
    rw [get_profile, load_save]
    exact alookup_setEntry_self P (delEntry K prof) (load_profiles content)

theorem claim_C6_witness :
    remove_variable "\x7b\n  \"dev\": \x7b\x7d\n\x7d" "dev" "A" =
      (false, "\x7b\n  \"dev\": \x7b\x7d\n\x7d") ∧
    alookup "A" (delEntry "A" [("A", "x")]) = none :=
  ⟨((claim_C6 "\x7b\n  \"dev\": \x7b\x7d\n\x7d" "dev" "A").1).mpr (by decide),
    ((claim_C6 "\x7b\n  \"dev\": \x7b\n    \"A\": \"x\"\n  \x7d\n\x7d" "dev" "A").2
      [("A", "x")] (by decide) (by decide)).2.2.1⟩

/-- C7: `get_profile` returns an explicit absent signal (`none`) exactly for
names not in the store and the stored (possibly empty) mapping otherwise, so
a missing profile and an empty profile are distinguishable, and the `show`
and `load` commands print different messages (and exit codes) for the two
cases. -/
theorem claim_C7 (content P : String) :
    (get_profile content P = none ↔
      ¬ P ∈ keysOf (load_profiles content)) ∧
    (∀ prof, alookup P (load_profiles content) = some prof →
      get_profile content P = some prof) ∧
    (get_profile content P = none →
      (show_profile_cmd content P).1 =
        ⟨1, ["Profile '" ++ P ++ "' does not exist"], []⟩ ∧
      (load_profile_cmd content P).1 =
        ⟨1, [], ["# Profile '" ++ P ++ "' does not exist"]⟩) ∧
    (get_profile content P = some [] →
      (show_profile_cmd content P).1 =
        ⟨0, ["Profile '" ++ P ++ "' is empty"], []⟩ ∧
      (load_profile_cmd content P).1 =
        ⟨0, [], ["# Profile '" ++ P ++ "' is empty"]⟩) ∧
    ("Profile '" ++ P ++ "' does not exist" ≠
      "Profile '" ++ P ++ "' is empty") ∧
    ("# Profile '" ++ P ++ "' does not exist" ≠
      "# Profile '" ++ P ++ "' is empty") := by
  refine ⟨?_, ?_, ?_, ?_, show_msgs_ne P, load_msgs_ne P⟩
  · constructor
    · intro h hm
      obtain ⟨m, hm2⟩ := exists_of_mem_keys P (load_profiles content) hm
      rw [get_profile] at h
      rw [h] at hm2
      exact Option.noConfusion hm2
    · intro h
      rw [get_profile]
      cases hl : alookup P (load_profiles content) with
      | none => rfl
      | some m =>
        exact absurd ((hasKey_iff_mem P _).mp (by rw [hasKey, hl]; rfl)) h
  · intro prof h
    rw [get_profile, h]
  · intro h
    rw [show_profile_cmd, load_profile_cmd, h]
    exact ⟨rfl, rfl⟩
  · intro h
    rw [show_profile_cmd, load_profile_cmd, h]
    exact ⟨rfl, rfl⟩

theorem claim_C7_witness :
    get_profile "\x7b\n  \"dev\": \x7b\x7d\n\x7d" "prod" = none ∧
    get_profile "\x7b\n  \"dev\": \x7b\x7d\n\x7d" "dev" = some [] ∧
    (show_profile_cmd "\x7b\n  \"dev\": \x7b\x7d\n\x7d" "prod").1 =
      ⟨1, ["Profile 'prod' does not exist"], []⟩ ∧
    (show_profile_cmd "\x7b\n  \"dev\": \x7b\x7d\n\x7d" "dev").1 =
      ⟨0, ["Profile 'dev' is empty"], []⟩ :=
  ⟨((claim_C7 "\x7b\n  \"dev\": \x7b\x7d\n\x7d" "prod").1).mpr (by decide),
    (claim_C7 "\x7b\n  \"dev\": \x7b\x7d\n\x7d" "dev").2.1 [] (by decide),
    ((claim_C7 "\x7b\n  \"dev\": \x7b\x7d\n\x7d" "prod").2.2.1 (by decide)).1,
    ((claim_C7 "\x7b\n  \"dev\": \x7b\x7d\n\x7d" "dev").2.2.2.1 (by decide)).1⟩

/-- C9: every name present in a store — as loaded, and after each mutating
operation — is bound to an actual (possibly empty) variable mapping: a
profile key never exists without a mapping. -/
theorem claim_C9 (content P K V : String) :
    (∀ Q, Q ∈ keysOf (load_profiles content) →
      ∃ m, get_profile content Q = some m) ∧
    (∀ Q, Q ∈ keysOf (load_profiles (create_profile content P).2) →
      ∃ m, get_profile (create_profile content P).2 Q = some m) ∧
    (∀ Q, Q ∈ keysOf (load_profiles (add_variable content P K V).2) →
      ∃ m, get_profile (add_variable content P K V).2 Q = some m) ∧
    (∀ Q, Q ∈ keysOf (load_profiles (remove_variable content P K).2) →
      ∃ m, get_profile (remove_variable content P K).2 Q = some m) ∧
    (∀ Q, Q ∈ keysOf (load_profiles (delete_profile content P).2) →
      ∃ m, get_profile (delete_profile content P).2 Q = some m) := by
  refine ⟨?_, ?_, ?_, ?_, ?_⟩ <;>
    exact fun Q hm => exists_of_mem_keys Q _ hm

theorem claim_C9_witness :
    ∃ m, get_profile (create_profile "\x7b\x7d" "dev").2 "dev" = some m :=
  (claim_C9 "\x7b\x7d" "dev" "A" "x").2.1 "dev" (by decide)

/-- C10: a successful `add_variable` is frame-preserving — in the persisted
state the set of profile names is unchanged, every profile other than the
target is unchanged, and within the target profile every key other than the
one written keeps its binding. -/
theorem claim_C10 (content P K V : String) (prof : Profile)
    (h : alookup P (load_profiles content) = some prof) :
    keysOf (load_profiles (add_variable content P K V).2) =
      keysOf (load_profiles content) ∧
    (∀ Q, ¬ Q = P →
      alookup Q (load_profiles (add_variable content P K V).2) =
        alookup Q (load_profiles content)) ∧
    alookup P (load_profiles (add_variable content P K V).2) =
      some (setEntry K V prof) ∧
    (∀ K2, ¬ K2 = K →
      alookup K2 (setEntry K V prof) = alookup K2 prof) := by
  have hhk : hasKey P (load_profiles content) = true := by
    rw [hasKey, h]
    rfl
  rw [add_variable]
  simp only [h]
  rw [load_save]
  refine ⟨keysOf_setEntry_haskey P _ _ hhk,
    fun Q hq => alookup_setEntry_ne P Q _ _ hq,
    alookup_setEntry_self P _ _,
    fun K2 hk => alookup_setEntry_ne K K2 V prof hk⟩

theorem claim_C10_witness :
    alookup "other" (load_profiles
      (add_variable "\x7b\n  \"dev\": \x7b\x7d,\n  \"other\": \x7b\n    \"B\": \"y\"\n  \x7d\n\x7d"
        "dev" "A" "x").2) =
    alookup "other" (load_profiles
      "\x7b\n  \"dev\": \x7b\x7d,\n  \"other\": \x7b\n    \"B\": \"y\"\n  \x7d\n\x7d") :=
  (claim_C10 "\x7b\n  \"dev\": \x7b\x7d,\n  \"other\": \x7b\n    \"B\": \"y\"\n  \x7d\n\x7d"
      "dev" "A" "x" [] (by decide)).2.1 "other" (by decide)

/-- C1: on a profile name absent from the store, the `show`, `add`,
`remove` and `delete` commands each print a `does not exist` message and
return exit code 1 (which the installed console script passes to
`sys.exit`), while every command that succeeds returns exit code 0. -/
theorem claim_C1 (content P K V : String)
    (h : ¬ hasKey P (load_profiles content) = true) :
    ((show_profile_cmd content P).1.exitCode = 1 ∧
      (show_profile_cmd content P).1.stdoutLines =
        ["Profile '" ++ P ++ "' does not exist"]) ∧
    ((add_variable_cmd content P K V).1.exitCode = 1 ∧
      (add_variable_cmd content P K V).1.stdoutLines =
        ["Profile '" ++ P ++ "' does not exist"]) ∧
    ((remove_variable_cmd content P K).1.exitCode = 1 ∧
      (remove_variable_cmd content P K).1.stdoutLines =
        ["Profile '" ++ P ++ "' does not exist"]) ∧
    ((delete_profile_cmd content P).1.exitCode = 1 ∧
      (delete_profile_cmd content P).1.stdoutLines =
        ["Profile '" ++ P ++ "' does not exist"]) ∧
    (create_profile_cmd content P).1.exitCode = 0 ∧
    (list_profiles_cmd content).1.exitCode = 0 ∧
    (∀ Q prof, alookup Q (load_profiles content) = some prof →
      (show_profile_cmd content Q).1.exitCode = 0 ∧
      (load_profile_cmd content Q).1.exitCode = 0 ∧
      (add_variable_cmd content Q K V).1.exitCode = 0 ∧
      (delete_profile_cmd content Q).1.exitCode = 0 ∧
      (hasKey K prof = true →
        (remove_variable_cmd content Q K).1.exitCode = 0)) := by
  have hnone : alookup P (load_profiles content) = none :=
    alookup_none_of_not_hasKey P _ h
  have hadd : add_variable content P K V = (false, content) := by
    rw [add_variable]
    simp only [hnone]
  have hrem : remove_variable content P K = (false, content) := by
    rw [remove_variable]
    simp only [hnone]
  refine ⟨?_, ?_, ?_, ?_, ?_, ?_, ?_⟩
  · rw [show_profile_cmd, get_profile, hnone]
    exact ⟨rfl, rfl⟩
  · rw [add_variable_cmd, hadd]
    exact ⟨rfl, rfl⟩
  · rw [remove_variable_cmd, hrem]
    simp only [Bool.false_eq_true, if_false]
    rw [if_pos h]
    exact ⟨by trivial, by trivial⟩
  · rw [delete_profile_cmd, delete_profile]
    simp only [h, if_false, Bool.false_eq_true]
    exact ⟨by trivial, by trivial⟩
  · rw [create_profile_cmd, create_profile]
    simp only [h, if_false, Bool.false_eq_true]
    rfl
  · rw [list_profiles_cmd]
    by_cases hl : list_profiles content = []
    · rw [if_pos hl]
    · rw [if_neg hl]
  · intro Q prof hq
    refine ⟨?_, ?_, ?_, ?_, ?_⟩
    · rw [show_profile_cmd, get_profile, hq]
      cases prof <;> rfl
    · rw [load_profile_cmd, get_profile, hq]
      cases prof <;> rfl
    · rw [add_variable_cmd, add_variable]
      simp only [hq, if_true]
    · rw [delete_profile_cmd, delete_profile]
      simp only [hasKey, hq, Option.isSome_some, if_true]
    · intro hk
      rw [remove_variable_cmd, remove_variable]
      simp only [hq, hk, if_true]

theorem claim_C1_witness :
    (show_profile_cmd "\x7b\x7d" "dev").1.exitCode = 1 ∧
    (show_profile_cmd "\x7b\x7d" "dev").1.stdoutLines =
      ["Profile '" ++ "dev" ++ "' does not exist"] :=
  (claim_C1 "\x7b\x7d" "dev" "A" "x" (by decide)).1

/-- C2: for a stored profile, `load` writes to stdout exactly one line per
variable, of the form `export <key>='<escaped value>';` with the value
escaped by replacing each `'` with `'\''`; diagnostics go to stderr only,
and stdout holds nothing else.  Evaluating the quoted value under the POSIX
single-quote word rules yields exactly the original value, so the output
cannot inject commands. -/
theorem claim_C2 (content P : String) (prof : Profile)
    (h : get_profile content P = some prof) :
    (load_profile_cmd content P).1.stdoutLines =
      prof.map (fun kv => exportLine kv.1 kv.2) ∧
    (∀ kv : String × String, kv ∈ prof → exportLine kv.1 kv.2 =
      "export " ++ kv.1 ++ "='" ++ shellEscape kv.2 ++ "';") ∧
    (∀ kv : String × String, kv ∈ prof →
      evalWord false ('\'' :: ((shellEscape kv.2).data ++ ['\''])) =
        some kv.2.data) ∧
    (prof = [] →
      (load_profile_cmd content P).1 =
        ⟨0, [], ["# Profile '" ++ P ++ "' is empty"]⟩) ∧
    (¬ prof = [] →
      (load_profile_cmd content P).1.stderrLines = [] ∧
      (load_profile_cmd content P).1.exitCode = 0) := by
  refine ⟨?_, fun kv _ => rfl, fun kv _ => evalWord_quoted kv.2.data, ?_, ?_⟩
  · rw [load_profile_cmd, h]
    cases prof <;> rfl
  · intro he
    subst he
    rw [load_profile_cmd, h]
  · intro hne
    rw [load_profile_cmd, h]
    cases prof with
    | nil => exact absurd rfl hne
    | cons kv rest => exact ⟨rfl, rfl⟩

theorem claim_C2_witness :
    (load_profile_cmd "\x7b\n  \"dev\": \x7b\n    \"A\": \"O'Brien\"\n  \x7d\n\x7d"
        "dev").1.stdoutLines =
      [(("A" : String), ("O'Brien" : String))].map
        (fun kv => exportLine kv.1 kv.2) :=
  (claim_C2 "\x7b\n  \"dev\": \x7b\n    \"A\": \"O'Brien\"\n  \x7d\n\x7d" "dev"
    [("A", "O'Brien")] (by decide)).1
